import Mathlib

/-!
Verification of the `zed-jake` editor extension
(`src/editors/zed-jake/src/lib.rs`), a Zed slash-command handler for the
`jake` task runner.  The Rust source is embedded shallowly: the host-API
structs (`SlashCommand`, `SlashCommandOutput`, `SlashCommandOutputSection`,
`SlashCommandArgumentCompletion`, `Worktree`) are modelled by the fields the
code uses, Rust `Result<T, String>` becomes `Except String T`, and the two
trait methods become pure Lean functions on the (field-less) extension
value.  Byte lengths of strings (`String::len` in Rust) are modelled with
`String.utf8ByteSize`.
-/

namespace ZedJake

/-- Model of `zed_extension_api::SlashCommand`; the code only reads the
`name` field. -/
structure SlashCommand where
  name : String
deriving DecidableEq

/-- Model of the half-open byte range produced by `(0..text.len()).into()`.
The field `end` of the Rust struct is spelled `end_` because `end` is a
Lean keyword. -/
structure Range where
  start : Nat
  end_ : Nat
deriving DecidableEq

/-- Model of `zed_extension_api::SlashCommandOutputSection`. -/
structure SlashCommandOutputSection where
  range : Range
  label : String
deriving DecidableEq

/-- Model of `zed_extension_api::SlashCommandOutput`. -/
structure SlashCommandOutput where
  sections : List SlashCommandOutputSection
  text : String
deriving DecidableEq

/-- Model of `zed_extension_api::SlashCommandArgumentCompletion` (never
constructed by the code). -/
structure SlashCommandArgumentCompletion where
  label : String
  new_text : String
  run_command : Bool
deriving DecidableEq

/-- Model of `zed_extension_api::Worktree`.  The extension never inspects a
worktree, so it is modelled as an abstract token carrying an identifier. -/
structure Worktree where
  id : Nat
deriving DecidableEq

/-- Model of `struct JakeExtension;` — a zero-field value type, so it can
carry no hidden state across calls. -/
structure JakeExtension where
deriving DecidableEq

/-- Model of `fn new() -> Self { JakeExtension }`. -/
def JakeExtension.new : JakeExtension := ⟨⟩

/-- Embedding of `fn complete_slash_command_argument`: matches on
`command.name`; the `"jake"` arm returns `Ok(vec![])` (recipe discovery is
an unimplemented TODO), and every other arm also returns `Ok(vec![])`. -/
def complete_slash_command_argument (_self : JakeExtension)
    (command : SlashCommand) (_args : List String) :
    Except String (List SlashCommandArgumentCompletion) :=
  match command.name with
  | "jake" => Except.ok []
  | _ => Except.ok []

/-- Embedding of `fn run_slash_command`: for command name `"jake"`, take the
first argument as the recipe (`args.first().ok_or("Please specify a recipe
name")?`), build `text = format!("jake {}", recipe)` and return it with one
section spanning `0..text.len()` labelled `format!("Run: jake {}", recipe)`;
any other command name yields `Err(format!("Unknown command: {}",
command.name))`. -/
def run_slash_command (_self : JakeExtension) (command : SlashCommand)
    (args : List String) (_worktree : Option Worktree) :
    Except String SlashCommandOutput :=
  match command.name with
  | "jake" =>
    match args.head? with
    | none => Except.error "Please specify a recipe name"
    | some recipe =>
      let text := "jake " ++ recipe
      Except.ok
        { sections :=
            [{ range := { start := 0, end_ := text.utf8ByteSize },
               label := "Run: jake " ++ recipe }],
          text := text }
  | _ => Except.error ("Unknown command: " ++ command.name)

/-- Boolean test that the list `sub` occurs contiguously inside `l`; used to
state the "error message contains …" claims. -/
def occursIn (sub : List Char) : List Char → Bool
  | [] => sub.isEmpty
  | c :: rest => sub.isPrefixOf (c :: rest) || occursIn sub rest

/-- The string `sub` occurs as a contiguous substring of `msg`. -/
def mentions (msg sub : String) : Bool :=
  occursIn sub.data msg.data

theorem isPrefixOf_append (sub t : List Char) :
    sub.isPrefixOf (sub ++ t) = true := by
  induction sub with
  | nil => simp [List.isPrefixOf]
  | cons a as ih => simp [List.isPrefixOf, ih]

theorem occursIn_append (sub pre post : List Char) :
    occursIn sub (pre ++ sub ++ post) = true := by
  induction pre with
  | nil =>
    cases sub with
    | nil =>
      cases post with
      | nil => rfl
      | cons c cs => simp [occursIn, List.isPrefixOf]
    | cons s ss =>
      have h := isPrefixOf_append (s :: ss) post
      simp only [List.cons_append] at h
      simp [occursIn, h]
  | cons p ps ih =>
    simp only [List.cons_append, occursIn, List.append_eq]
    rw [ih]
    simp

theorem run_jake_cons (e : JakeExtension) (r : String) (rest : List String)
    (w : Option Worktree) :
    run_slash_command e ⟨"jake"⟩ (r :: rest) w = Except.ok
      { sections :=
          [{ range := { start := 0, end_ := ("jake " ++ r).utf8ByteSize },
             label := "Run: jake " ++ r }],
        text := "jake " ++ r } := rfl

theorem run_jake_nil (e : JakeExtension) (w : Option Worktree) :
    run_slash_command e ⟨"jake"⟩ [] w
      = Except.error "Please specify a recipe name" := rfl

theorem run_unknown (e : JakeExtension) (name : String) (args : List String)
    (w : Option Worktree) (h : name ≠ "jake") :
    run_slash_command e ⟨name⟩ args w
      = Except.error ("Unknown command: " ++ name) := by
  unfold run_slash_command
  split
  · rename_i heq
    exact absurd heq h
  · rfl

theorem mentions_self_append (pre s : String) :
    mentions (pre ++ s) s = true := by
  unfold mentions
  rw [String.data_append]
  have h := occursIn_append s.data pre.data []
  simpa using h

/-- C1: for every non-empty argument list `r :: rest`, running the `jake`
command succeeds with text `"jake " ++ r` and exactly one section whose
range is the half-open byte range from `0` to the byte length of the text
and whose label is `"Run: jake " ++ r`. -/
theorem C1_run_jake_success (e : JakeExtension) (r : String)
    (rest : List String) (w : Option Worktree) :
    ∃ out, run_slash_command e ⟨"jake"⟩ (r :: rest) w = Except.ok out ∧
      out.text = "jake " ++ r ∧
      out.sections =
        [{ range := { start := 0, end_ := out.text.utf8ByteSize },
           label := "Run: jake " ++ r }] :=
  ⟨_, run_jake_cons e r rest w, rfl, rfl⟩

/-- C2: running the `jake` command with an empty argument list returns an
error value (not a default output) whose message contains the substring
"Please specify a recipe name". -/
theorem C2_run_jake_empty_error (e : JakeExtension) (w : Option Worktree) :
    ∃ msg, run_slash_command e ⟨"jake"⟩ [] w = Except.error msg ∧
      mentions msg "Please specify a recipe name" = true :=
  ⟨_, run_jake_nil e w, by decide⟩

/-- C3: for every command name other than `"jake"` and every argument list,
running returns an error whose message includes the command name; the
message is exactly `"Unknown command: " ++ c`. -/
theorem C3_run_unknown_command_error (e : JakeExtension) (c : String)
    (args : List String) (w : Option Worktree) (h : c ≠ "jake") :
    run_slash_command e ⟨c⟩ args w
        = Except.error ("Unknown command: " ++ c) ∧
      mentions ("Unknown command: " ++ c) c = true :=
  ⟨run_unknown e c args w h, mentions_self_append "Unknown command: " c⟩

/-- C3 witness: `run("other", ["x"])` errors with a message containing
"Unknown command: other". -/
theorem C3_witness :
    run_slash_command JakeExtension.new ⟨"other"⟩ ["x"] none
        = Except.error ("Unknown command: " ++ "other") ∧
      mentions ("Unknown command: " ++ "other") "other" = true :=
  C3_run_unknown_command_error JakeExtension.new "other" ["x"] none
    (by decide)

/-- C4: argument completion never fails and always returns the empty list of
suggestions, for every command name and argument list. -/
theorem C4_complete_always_empty (e : JakeExtension) (cmd : SlashCommand)
    (args : List String) :
    complete_slash_command_argument e cmd args = Except.ok [] := by
  unfold complete_slash_command_argument
  split <;> rfl

/-- C5: whenever `run_slash_command` succeeds, every section of the output
has a range within the bounds of the output text:
`0 ≤ start ≤ end ≤ byte length of the text`. -/
theorem C5_sections_within_bounds (e : JakeExtension) (cmd : SlashCommand)
    (args : List String) (w : Option Worktree) (out : SlashCommandOutput)
    (h : run_slash_command e cmd args w = Except.ok out) :
    ∀ s ∈ out.sections,
      s.range.start ≤ s.range.end_ ∧
        s.range.end_ ≤ out.text.utf8ByteSize := by
  rcases cmd with ⟨name⟩
  by_cases hn : name = "jake"
  · subst hn
    cases args with
    | nil => rw [run_jake_nil] at h; cases h
    | cons r rest =>
      rw [run_jake_cons] at h
      injection h with h
      subst h
      intro s hs
      rw [List.mem_singleton] at hs
      subst hs
      exact ⟨Nat.zero_le _, Nat.le_refl _⟩
  · rw [run_unknown e name args w hn] at h; cases h

/-- C5 witness: the single section of the output of
`run("jake", ["build"])` is within the bounds of the ten-byte text
"jake build". -/
theorem C5_witness :
    (⟨⟨0, 10⟩, "Run: jake build"⟩ : SlashCommandOutputSection).range.start ≤
        (⟨⟨0, 10⟩, "Run: jake build"⟩ :
          SlashCommandOutputSection).range.end_ ∧
      (⟨⟨0, 10⟩, "Run: jake build"⟩ :
          SlashCommandOutputSection).range.end_ ≤
        (⟨[⟨⟨0, 10⟩, "Run: jake build"⟩], "jake build"⟩ :
          SlashCommandOutput).text.utf8ByteSize :=
  C5_sections_within_bounds JakeExtension.new ⟨"jake"⟩ ["build"] none
    ⟨[⟨⟨0, 10⟩, "Run: jake build"⟩], "jake build"⟩ rfl
    ⟨⟨0, 10⟩, "Run: jake build"⟩ (by simp)

/-- C6: only the first argument influences the result — two argument lists
with the same head produce identical outputs — and concretely
`run("jake", ["deploy", "extra", "args"])` yields text "jake deploy". -/
theorem C6_only_first_argument (e : JakeExtension) (r : String)
    (rest rest' : List String) (w : Option Worktree) :
    run_slash_command e ⟨"jake"⟩ (r :: rest) w
        = run_slash_command e ⟨"jake"⟩ (r :: rest') w ∧
      ∃ out, run_slash_command e ⟨"jake"⟩ ["deploy", "extra", "args"] w
          = Except.ok out ∧ out.text = "jake deploy" :=
  ⟨rfl, _, run_jake_cons e "deploy" ["extra", "args"] w, rfl⟩

/-- C7: `run_slash_command` is deterministic — the extension value has no
fields, so no hidden state exists, and any two invocations with identical
command, arguments and context (even through distinct extension values)
return identical results. -/
theorem C7_deterministic (e e' : JakeExtension) (cmd : SlashCommand)
    (args : List String) (w : Option Worktree) :
    run_slash_command e cmd args w = run_slash_command e' cmd args w := by
  cases e
  cases e'
  rfl

/-- C8: the optional worktree context is unused — the result is the same for
any two worktree arguments, in particular whether the worktree is absent or
any present value. -/
theorem C8_worktree_unused (e : JakeExtension) (cmd : SlashCommand)
    (args : List String) (w w' : Option Worktree) :
    run_slash_command e cmd args w = run_slash_command e cmd args w' := rfl

/-- C9: the recipe string is used verbatim with no validation — an empty
first argument succeeds with text "jake " (5 bytes, trailing space), one
section with range from 0 to 5, and label "Run: jake ". -/
theorem C9_empty_recipe_verbatim (e : JakeExtension) (rest : List String)
    (w : Option Worktree) :
    run_slash_command e ⟨"jake"⟩ ("" :: rest) w = Except.ok
        { sections :=
            [{ range := { start := 0, end_ := 5 }, label := "Run: jake " }],
          text := "jake " } ∧
      ("jake " : String).utf8ByteSize = 5 :=
  ⟨rfl, by decide⟩

/-- C10: the missing-argument error message is exactly the fixed string
"Please specify a recipe name", for every worktree context, and it does not
mention the command name "jake". -/
theorem C10_fixed_missing_argument_message (e : JakeExtension)
    (w : Option Worktree) :
    run_slash_command e ⟨"jake"⟩ [] w
        = Except.error "Please specify a recipe name" ∧
      mentions "Please specify a recipe name" "jake" = false :=
  ⟨run_jake_nil e w, by decide⟩

end ZedJake
